import Mathlib

/-!
Shallow embedding of the StartEngine ethers-v6 KMS signer core
(src/src/types.ts and src/src/AwsKmsSigner.ts).

Conventions of the embedding:
  - JS bigint values appearing in this code path are non-negative and are
    embedded as Nat.
  - Node Buffers / byte arrays are List Nat (each element intended < 256).
  - JS strings are Lean String.
  - Functions that throw in TS return Option / Except here.
  - External primitives (the ethers keccak256, recoverAddress and checksum
    helpers, the asn1.js DER parser, the AWS KMS network calls) are either
    parameters of the embedded functions or are modelled from the spec,
    as flagged in the individual doc comments.
-/

/-! ### Hex rendering (types.ts toHex) and a parser for stating round trips -/

/-- MSB-first lowercase hex digits of a natural number, structured on a fuel
argument so the kernel can evaluate it.  `natHexCharsAux n n` computes the
digit list of a positive `n`, the digit loop of JS `bigint.toString(16)`. -/
def natHexCharsAux : Nat → Nat → List Char
  | 0, _ => []
  | _ + 1, 0 => []
  | fuel + 1, n + 1 =>
      natHexCharsAux fuel ((n + 1) / 16) ++ [Nat.digitChar ((n + 1) % 16)]

/-- JS `bigint.toString(16)` for non-negative values: minimal lowercase hex
digits, and the single digit `0` for the value zero. -/
def natHexChars (n : Nat) : List Char :=
  if n = 0 then ['0'] else natHexCharsAux n n

/-- `toHex` from src/src/types.ts lines 93-100: render a bigint as hex and
add a single leading `0` when the natural representation has odd length,
then prefix `0x`. -/
def toHex (bigIntValue : Nat) : String :=
  "0x" ++ String.mk
    (if (natHexChars bigIntValue).length % 2 ≠ 0
     then '0' :: natHexChars bigIntValue
     else natHexChars bigIntValue)

/-- Numeric value of a single hex digit (both cases accepted), computed
from the character code. -/
def hexDigitVal (c : Char) : Option Nat :=
  if '0' ≤ c ∧ c ≤ '9' then some (c.toNat - Char.toNat '0')
  else if 'a' ≤ c ∧ c ≤ 'f' then some (c.toNat - Char.toNat 'a' + 10)
  else if 'A' ≤ c ∧ c ≤ 'F' then some (c.toNat - Char.toNat 'A' + 10)
  else none

/-- Accumulator-style big-endian hex parse. -/
def parseHexAux : Nat → List Char → Option Nat
  | acc, [] => some acc
  | acc, c :: cs =>
      match hexDigitVal c with
      | some v => parseHexAux (acc * 16 + v) cs
      | none => none

/-- Character-list form of the `0x`-prefixed hex parse. -/
def parseHex0x : List Char → Option Nat
  | '0' :: 'x' :: rest => if rest.isEmpty then none else parseHexAux 0 rest
  | _ => none

/-- Parse a `0x`-prefixed hex string back to a natural number (the reading
JS `BigInt` gives to such a string). -/
def fromHex (s : String) : Option Nat :=
  parseHex0x s.data

theorem hexDigitVal_digitChar (d : Nat) (h : d < 16) :
    hexDigitVal (Nat.digitChar d) = some d := by
  interval_cases d <;> rfl

theorem parseHexAux_append (acc : Nat) (xs ys : List Char) :
    parseHexAux acc (xs ++ ys) =
      (parseHexAux acc xs).bind fun a => parseHexAux a ys := by
  induction xs generalizing acc with
  | nil => rfl
  | cons c cs ih =>
      simp only [List.cons_append, parseHexAux]
      cases hexDigitVal c with
      | none => rfl
      | some v => simpa using ih (acc * 16 + v)

theorem parseHexAux_natHexCharsAux (fuel : Nat) :
    ∀ n acc : Nat, n ≤ fuel →
      parseHexAux acc (natHexCharsAux fuel n) =
        some (acc * 16 ^ (natHexCharsAux fuel n).length + n) := by
  induction fuel with
  | zero =>
      intro n acc h
      have hn : n = 0 := Nat.le_zero.mp h
      subst hn
      simp [natHexCharsAux, parseHexAux]
  | succ fuel ih =>
      intro n acc h
      cases n with
      | zero => simp [natHexCharsAux, parseHexAux]
      | succ m =>
          have hdivfuel : (m + 1) / 16 ≤ fuel := by
            have hlt : (m + 1) / 16 < m + 1 :=
              Nat.div_lt_self (Nat.succ_pos m) (by omega)
            omega
          rw [natHexCharsAux, parseHexAux_append, ih _ acc hdivfuel]
          simp only [Option.some_bind, parseHexAux,
            hexDigitVal_digitChar _ (Nat.mod_lt _ (by omega))]
          have hdm : (m + 1) / 16 * 16 + (m + 1) % 16 = m + 1 := by
            have := Nat.div_add_mod (m + 1) 16
            omega
          have hlen : (natHexCharsAux fuel ((m + 1) / 16) ++
              [Nat.digitChar ((m + 1) % 16)]).length =
              (natHexCharsAux fuel ((m + 1) / 16)).length + 1 := by
            simp
          rw [hlen]
          congr 1
          calc (acc * 16 ^ (natHexCharsAux fuel ((m + 1) / 16)).length
                  + (m + 1) / 16) * 16 + (m + 1) % 16
              = acc * 16 ^ ((natHexCharsAux fuel ((m + 1) / 16)).length + 1)
                  + ((m + 1) / 16 * 16 + (m + 1) % 16) := by ring
            _ = acc * 16 ^ ((natHexCharsAux fuel ((m + 1) / 16)).length + 1)
                  + (m + 1) := by rw [hdm]

theorem natHexChars_ne_nil (n : Nat) : natHexChars n ≠ [] := by
  unfold natHexChars
  split
  · simp
  · rename_i hn
    have hpos : 0 < n := Nat.pos_of_ne_zero hn
    cases n with
    | zero => omega
    | succ m => simp [natHexCharsAux]

theorem parseHexAux_zero_natHexChars (n : Nat) :
    parseHexAux 0 (natHexChars n) = some n := by
  unfold natHexChars
  split
  · rename_i hn
    subst hn
    rfl
  · rename_i hn
    rw [parseHexAux_natHexCharsAux n n 0 (Nat.le_refl n)]
    simp

theorem toHex_data (x : Nat) :
    (toHex x).data = '0' :: 'x' ::
      (if (natHexChars x).length % 2 ≠ 0 then '0' :: natHexChars x
       else natHexChars x) := by
  unfold toHex
  split <;> rfl

theorem fromHex_toHex (x : Nat) : fromHex (toHex x) = some x := by
  have hne := natHexChars_ne_nil x
  rw [fromHex, toHex_data]
  by_cases hodd : (natHexChars x).length % 2 ≠ 0
  · rw [if_pos hodd]
    exact parseHexAux_zero_natHexChars x
  · rw [if_neg hodd]
    cases hl : natHexChars x with
    | nil => exact absurd hl hne
    | cons c cs =>
        have hp := parseHexAux_zero_natHexChars x
        rw [hl] at hp
        simpa [parseHex0x] using hp

/-! ### secp256k1 constants and low-s normalization (types.ts 129-142) -/

/-- The secp256k1 group order, src/src/types.ts line 135. -/
def secp256k1N : Nat :=
  0xfffffffffffffffffffffffffffffffebaaedce6af48a03bbfd25e8cd0364141

/-- Half of the curve order with bigint (floor) division,
src/src/types.ts line 136. -/
def secp256k1halfN : Nat := secp256k1N / 2

/-- The s-flip of src/src/types.ts line 140:
`s > secp256k1halfN ? secp256k1N - s : s`. -/
def normalizeS (s : Nat) : Nat :=
  if secp256k1halfN < s then secp256k1N - s else s

/-! ### DER signature decoding (types.ts 73-80)

`decodeEcdsaSig` delegates the DER parse to the external asn1.js library
(`EcdsaSigAsnParse.decode(signature, 'der')`) and converts the two decoded
integers to bigint. -/

/-- Big-endian unsigned value of a byte list, the value BN.js assigns to a
DER INTEGER body (a leading zero pad byte does not change it). -/
def beVal (bs : List Nat) : Nat :=
  bs.foldl (fun a b => a * 256 + b) 0

/-- Modelled from the spec: one DER INTEGER field, per spec section 4.1:
tag `0x02`, short-form length, then the big-endian unsigned body which may
carry one artifact leading zero byte.  The asn1.js parser that
src/src/types.ts line 75 delegates to is an external dependency.
Returns the decoded value and the remaining bytes. -/
def parseDerInt : List Nat → Option (Nat × List Nat)
  | 2 :: len :: rest =>
      if 0 < len ∧ len ≤ rest.length then
        some (beVal (rest.take len), rest.drop len)
      else none
  | _ => none

/-- `decodeEcdsaSig` from src/src/types.ts lines 73-80.  Modelled from the
spec for the DER layer (section 4.1: a SEQUENCE, tag `0x30`, of exactly two
INTEGERs, no partial decode); the surrounding conversion to bigints is the
source's own code.  A TS decode throw is `none` here. -/
def decodeEcdsaSig : List Nat → Option (Nat × Nat)
  | 48 :: len :: rest =>
      if rest.length = len then
        match parseDerInt rest with
        | some (r, rest1) =>
            match parseDerInt rest1 with
            | some (s, rest2) => if rest2.isEmpty then some (r, s) else none
            | none => none
        | none => none
      else none
  | _ => none

/-- `getRsSignature` from src/src/types.ts lines 129-142: decode, flip `s`
above the half order, render both components with `toHex`. -/
def getRsSignature (signature : List Nat) : Option (String × String) :=
  match decodeEcdsaSig signature with
  | some (r, s) => some (toHex r, toHex (normalizeS s))
  | none => none

/-! ### A reference DER encoder, used to state what decoding returns -/

/-- MSB-first base-256 digits of a positive natural (fuel-structured). -/
def natBytesAux : Nat → Nat → List Nat
  | 0, _ => []
  | _ + 1, 0 => []
  | fuel + 1, n + 1 =>
      natBytesAux fuel ((n + 1) / 256) ++ [(n + 1) % 256]

/-- Minimal big-endian bytes of a natural number (`[0]` for zero). -/
def natBytes (n : Nat) : List Nat :=
  if n = 0 then [0] else natBytesAux n n

/-- DER canonical integer body: prepend a zero byte when the top bit of the
minimal encoding is set. -/
def intBytes (n : Nat) : List Nat :=
  if 128 ≤ (natBytes n).headD 0 then 0 :: natBytes n else natBytes n

/-- One DER INTEGER field for a non-negative value. -/
def derEncodeInt (n : Nat) : List Nat :=
  2 :: (intBytes n).length :: intBytes n

/-- A DER ECDSA-Sig-Value SEQUENCE of two INTEGERs. -/
def derEncodeSig (r s : Nat) : List Nat :=
  48 :: (derEncodeInt r ++ derEncodeInt s).length ::
    (derEncodeInt r ++ derEncodeInt s)

theorem foldl_be_natBytesAux (fuel : Nat) :
    ∀ n acc : Nat, n ≤ fuel →
      List.foldl (fun a b => a * 256 + b) acc (natBytesAux fuel n) =
        acc * 256 ^ (natBytesAux fuel n).length + n := by
  induction fuel with
  | zero =>
      intro n acc h
      have hn : n = 0 := Nat.le_zero.mp h
      subst hn
      simp [natBytesAux]
  | succ fuel ih =>
      intro n acc h
      cases n with
      | zero => simp [natBytesAux]
      | succ m =>
          have hdivfuel : (m + 1) / 256 ≤ fuel := by
            have hlt : (m + 1) / 256 < m + 1 :=
              Nat.div_lt_self (Nat.succ_pos m) (by omega)
            omega
          rw [natBytesAux, List.foldl_append, ih _ acc hdivfuel]
          have hdm : (m + 1) / 256 * 256 + (m + 1) % 256 = m + 1 := by
            have := Nat.div_add_mod (m + 1) 256
            omega
          simp only [List.foldl_cons, List.foldl_nil, List.length_append,
            List.length_cons, List.length_nil]
          calc (acc * 256 ^ (natBytesAux fuel ((m + 1) / 256)).length
                  + (m + 1) / 256) * 256 + (m + 1) % 256
              = acc * 256 ^ ((natBytesAux fuel ((m + 1) / 256)).length + 1)
                  + ((m + 1) / 256 * 256 + (m + 1) % 256) := by ring
            _ = acc * 256 ^ ((natBytesAux fuel ((m + 1) / 256)).length
                  + (0 + 1)) + (m + 1) := by rw [hdm]

theorem beVal_natBytes (n : Nat) : beVal (natBytes n) = n := by
  unfold beVal natBytes
  split
  · rename_i hn
    subst hn
    rfl
  · rw [foldl_be_natBytesAux n n 0 (Nat.le_refl n)]
    simp

theorem beVal_intBytes (n : Nat) : beVal (intBytes n) = n := by
  unfold intBytes
  split
  · have h0 : beVal (0 :: natBytes n) = beVal (natBytes n) := by
      simp [beVal, List.foldl_cons]
    rw [h0, beVal_natBytes]
  · exact beVal_natBytes n

theorem intBytes_ne_nil (n : Nat) : intBytes n ≠ [] := by
  unfold intBytes natBytes
  split
  · simp
  · split
    · simp
    · rename_i hn
      cases n with
      | zero => omega
      | succ m => simp [natBytesAux]

theorem parseDerInt_encode (n : Nat) (rest : List Nat) :
    parseDerInt (derEncodeInt n ++ rest) = some (n, rest) := by
  have hne := intBytes_ne_nil n
  have hpos : 0 < (intBytes n).length := List.length_pos.mpr hne
  rw [derEncodeInt]
  show parseDerInt (2 :: (intBytes n).length :: (intBytes n ++ rest)) = _
  rw [parseDerInt]
  rw [if_pos ⟨hpos, by simp⟩]
  rw [List.take_left, List.drop_left, beVal_intBytes]

theorem decodeEcdsaSig_derEncodeSig (r s : Nat) :
    decodeEcdsaSig (derEncodeSig r s) = some (r, s) := by
  have h2 : parseDerInt (derEncodeInt s) = some (s, ([] : List Nat)) := by
    have h := parseDerInt_encode s []
    simpa using h
  simp [derEncodeSig, decodeEcdsaSig, parseDerInt_encode r (derEncodeInt s), h2]

theorem secp256k1N_odd : secp256k1N = 2 * secp256k1halfN + 1 := by decide

/-- C1: for every decoded signature `(r, s)` with `0 < s < secp256k1N`,
`getRsSignature` renders an s-component numerically equal to
`secp256k1N - s` when `s` exceeds the half order and to `s` otherwise, so
the returned s is at most `secp256k1halfN = secp256k1N / 2`; the returned
r-component is numerically the input `r`, unaltered. -/
theorem getRsSignature_lowS (sig : List Nat) (r s : Nat)
    (hdec : decodeEcdsaSig sig = some (r, s))
    (hs0 : 0 < s) (hsn : s < secp256k1N) :
    getRsSignature sig = some (toHex r, toHex (normalizeS s)) ∧
    fromHex (toHex r) = some r ∧
    fromHex (toHex (normalizeS s)) = some (normalizeS s) ∧
    (secp256k1halfN < s → normalizeS s = secp256k1N - s) ∧
    (s ≤ secp256k1halfN → normalizeS s = s) ∧
    0 < normalizeS s ∧
    normalizeS s ≤ secp256k1halfN := by
  have hodd := secp256k1N_odd
  refine ⟨by simp [getRsSignature, hdec], fromHex_toHex r,
    fromHex_toHex (normalizeS s), ?_, ?_, ?_, ?_⟩
  · intro h
    unfold normalizeS
    rw [if_pos h]
  · intro h
    unfold normalizeS
    rw [if_neg (by omega)]
  · unfold normalizeS
    split <;> omega
  · unfold normalizeS
    split <;> omega

/-- Witness for C1 at the DER blob encoding `(r, s) = (2, 3)`. -/
theorem getRsSignature_lowS_witness :
    (decodeEcdsaSig [48, 6, 2, 1, 2, 2, 1, 3] = some (2, 3) ∧
      0 < 3 ∧ 3 < secp256k1N) ∧
    (getRsSignature [48, 6, 2, 1, 2, 2, 1, 3] =
        some (toHex 2, toHex (normalizeS 3)) ∧
      fromHex (toHex 2) = some 2 ∧
      fromHex (toHex (normalizeS 3)) = some (normalizeS 3) ∧
      (secp256k1halfN < 3 → normalizeS 3 = secp256k1N - 3) ∧
      (3 ≤ secp256k1halfN → normalizeS 3 = 3) ∧
      0 < normalizeS 3 ∧
      normalizeS 3 ≤ secp256k1halfN) :=
  ⟨⟨by decide, by decide, by decide⟩,
    getRsSignature_lowS [48, 6, 2, 1, 2, 2, 1, 3] 2 3
      (by decide) (by decide) (by decide)⟩

/-- C5: the low-s normalization map applied by `getRsSignature` is
idempotent on `0 < s < secp256k1N`. -/
theorem normalizeS_idem (s : Nat) (hs0 : 0 < s) (hsn : s < secp256k1N) :
    normalizeS (normalizeS s) = normalizeS s := by
  have hodd := secp256k1N_odd
  by_cases h : secp256k1halfN < s
  · have h1 : normalizeS s = secp256k1N - s := by
      unfold normalizeS
      rw [if_pos h]
    rw [h1]
    unfold normalizeS
    rw [if_neg (by omega)]
  · have h1 : normalizeS s = s := by
      unfold normalizeS
      rw [if_neg h]
    rw [h1, h1]

/-- Witness for C5 at `s = 5`. -/
theorem normalizeS_idem_witness :
    (0 < 5 ∧ 5 < secp256k1N) ∧ normalizeS (normalizeS 5) = normalizeS 5 :=
  ⟨⟨by decide, by decide⟩, normalizeS_idem 5 (by decide) (by decide)⟩

/-- C4 counterexample: the well-formed DER blob `30 06 02 01 00 02 01 00`
encodes the integer pair `(0, 0)`; `decodeEcdsaSig` returns it unchanged,
so the claimed invariant `0 < r` (and `0 < s`) fails on a decodable blob. -/
theorem decodeEcdsaSig_returns_zero :
    decodeEcdsaSig [48, 6, 2, 1, 0, 2, 1, 0] = some (0, 0) ∧
    ¬(0 < (0 : Nat) ∧ (0 : Nat) < secp256k1N ∧
      0 < (0 : Nat) ∧ (0 : Nat) < secp256k1N) :=
  ⟨by decide, by decide⟩

/-- C4 (amended): `decodeEcdsaSig` returns exactly the unsigned integers
encoded in the blob and performs no range validation of its own, so the
invariant `0 < r < secp256k1N ∧ 0 < s < secp256k1N` holds for a decoded
signature exactly when the blob encodes values in that range (as blobs
produced by a real ECDSA signer do). -/
theorem decodeEcdsaSig_exact (r s : Nat)
    (hr0 : 0 < r) (hrn : r < secp256k1N)
    (hs0 : 0 < s) (hsn : s < secp256k1N) :
    decodeEcdsaSig (derEncodeSig r s) = some (r, s) :=
  decodeEcdsaSig_derEncodeSig r s

/-- Witness for the amended C4 at `(r, s) = (2, 3)`. -/
theorem decodeEcdsaSig_exact_witness :
    (0 < 2 ∧ 2 < secp256k1N ∧ 0 < 3 ∧ 3 < secp256k1N) ∧
    decodeEcdsaSig (derEncodeSig 2 3) = some (2, 3) :=
  ⟨by decide,
    decodeEcdsaSig_exact 2 3 (by decide) (by decide) (by decide) (by decide)⟩

/-- C6: `toHex` of a non-negative big integer is `0x`-prefixed with an even
number of hex digits, obtained from the natural minimal representation by
padding exactly one leading zero nibble when that representation has odd
length and in no other case, and it parses back to the input value. -/
theorem toHex_spec (x : Nat) :
    (toHex x).data.take 2 = ['0', 'x'] ∧
    ((toHex x).data.drop 2).length % 2 = 0 ∧
    fromHex (toHex x) = some x ∧
    ((toHex x).data.drop 2 = natHexChars x ∨
      (toHex x).data.drop 2 = '0' :: natHexChars x) ∧
    ((toHex x).data.drop 2 = '0' :: natHexChars x ↔
      (natHexChars x).length % 2 = 1) := by
  have hd := toHex_data x
  by_cases hodd : (natHexChars x).length % 2 ≠ 0
  · rw [if_pos hodd] at hd
    refine ⟨by rw [hd]; rfl, ?_, fromHex_toHex x,
      Or.inr (by rw [hd]; rfl), ?_⟩
    · rw [hd]
      simp only [List.drop_succ_cons, List.drop_zero, List.length_cons]
      omega
    · constructor
      · intro _
        omega
      · intro _
        rw [hd]
        rfl
  · have he : (natHexChars x).length % 2 = 0 := not_not.mp hodd
    rw [if_neg hodd] at hd
    refine ⟨by rw [hd]; rfl, ?_, fromHex_toHex x,
      Or.inl (by rw [hd]; rfl), ?_⟩
    · rw [hd]
      simp only [List.drop_succ_cons, List.drop_zero]
      exact he
    · constructor
      · intro h
        rw [hd] at h
        have hlen := congrArg List.length h
        simp only [List.drop_succ_cons, List.drop_zero,
          List.length_cons] at hlen
        omega
      · intro h
        omega

/-! ### ASCII case maps (JS toLowerCase / toUpperCase on addresses) -/

/-- JS `toLowerCase` restricted to ASCII, the alphabet of hex addresses. -/
def asciiToLower (c : Char) : Char :=
  if 'A' ≤ c ∧ c ≤ 'Z' then Char.ofNat (c.toNat + 32) else c

/-- JS `toUpperCase` restricted to ASCII. -/
def asciiToUpper (c : Char) : Char :=
  if 'a' ≤ c ∧ c ≤ 'z' then Char.ofNat (c.toNat - 32) else c

/-- `String.prototype.toLowerCase` on the ASCII strings of this library. -/
def strLower (s : String) : String :=
  String.mk (s.data.map asciiToLower)

/-! ### Address derivation (types.ts 111-119)

`getEthAddress` consumes three external primitives: the asn1.js public-key
DER decode (`decodeEcdsaPubKey`, types.ts 85-88), the ethers `keccak256`
helper, and the ethers checksum helper `getAddress`.  The first two are
parameters here; the checksum helper is modelled from the spec. -/

/-- The lowercase hex rendering ethers `keccak256` gives its 32 hash bytes
(two hex characters per byte). -/
def bytesToHexChars : List Nat → List Char
  | [] => []
  | b :: bs =>
      Nat.digitChar (b / 16) :: Nat.digitChar (b % 16) :: bytesToHexChars bs

/-- High-then-low nibble stream of a byte list. -/
def byteNibbles : List Nat → List Nat
  | [] => []
  | b :: bs => b / 16 :: b % 16 :: byteNibbles bs

/-- Modelled from the spec: the EIP-55 checksum casing applied by the
external ethers `getAddress`, per spec section 4.2: hex digit i of the
lowercase 40-digit address is uppercased exactly when nibble i of the
keccak-256 hash of the ASCII bytes of that lowercase string is at least 8. -/
def checksumChars (keccak : List Nat → List Nat) (cs : List Char) :
    List Char :=
  List.zipWith (fun c nib => if 8 ≤ nib then asciiToUpper c else c)
    cs (byteNibbles (keccak (cs.map Char.toNat)))

/-- Modelled from the spec: the external ethers `getAddress` on the valid
all-lowercase `0x` address produced below: normalize case, strip `0x`,
checksum-case the 40 digits, re-prefix. -/
def ethersGetAddress (keccak : List Nat → List Nat) (address : String) :
    String :=
  "0x" ++ String.mk (checksumChars keccak ((strLower address).data.drop 2))

/-- `getEthAddress` from src/src/types.ts lines 111-119: DER-decode the
public key (external, a parameter), drop the leading `0x04` tag byte,
keccak-256 the remaining bytes (ethers renders the hash `0x`-prefixed),
keep the final 40 hex characters (`.slice(-40)`), and checksum the result. -/
def getEthAddress (keccak decodePub : List Nat → List Nat)
    (publicKeyDer : List Nat) : String :=
  let decodedPublicKey := decodePub publicKeyDer
  let noPrefixPublicKey := decodedPublicKey.drop 1
  let hashHex := '0' :: 'x' :: bytesToHexChars (keccak noPrefixPublicKey)
  let address := "0x" ++ String.mk (hashHex.drop (hashHex.length - 40))
  ethersGetAddress keccak address

theorem data_mk_0x (l : List Char) :
    ("0x" ++ String.mk l).data = '0' :: 'x' :: l := rfl

theorem length_bytesToHexChars (l : List Nat) :
    (bytesToHexChars l).length = 2 * l.length := by
  induction l with
  | nil => rfl
  | cons b bs ih => simp [bytesToHexChars, ih]; omega

theorem bytesToHexChars_drop (k : Nat) :
    ∀ l : List Nat,
      bytesToHexChars (l.drop k) = (bytesToHexChars l).drop (2 * k) := by
  induction k with
  | zero => intro l; simp
  | succ k ih =>
      intro l
      cases l with
      | nil => simp [bytesToHexChars]
      | cons b bs =>
          have h2 : 2 * (k + 1) = 2 * k + 1 + 1 := by omega
          rw [List.drop_succ_cons, ih bs, bytesToHexChars, h2,
            List.drop_succ_cons, List.drop_succ_cons]

theorem length_byteNibbles (l : List Nat) :
    (byteNibbles l).length = 2 * l.length := by
  induction l with
  | nil => rfl
  | cons b bs ih => simp [byteNibbles, ih]; omega

theorem asciiToLower_digitChar (d : Nat) (h : d < 16) :
    asciiToLower (Nat.digitChar d) = Nat.digitChar d := by
  interval_cases d <;> rfl

theorem map_asciiToLower_bytesToHexChars (l : List Nat)
    (h : ∀ b ∈ l, b < 256) :
    (bytesToHexChars l).map asciiToLower = bytesToHexChars l := by
  induction l with
  | nil => rfl
  | cons b bs ih =>
      have hb : b < 256 := h b (List.mem_cons_self b bs)
      have hhi : b / 16 < 16 := by omega
      have hlo : b % 16 < 16 := by omega
      rw [bytesToHexChars, List.map_cons, List.map_cons,
        asciiToLower_digitChar _ hhi, asciiToLower_digitChar _ hlo,
        ih (fun x hx => h x (List.mem_cons_of_mem b hx))]

/-- C3: for a well-formed 65-byte point decoded from the DER blob,
`getEthAddress` hashes exactly the 64 bytes after the single leading tag
byte, takes the low-order 20 bytes of the 32-byte hash, and returns them
as a `0x`-prefixed, 42-character checksum-cased hex string.  `keccak` is
the external 32-byte hash primitive and `decodePub` the external asn1.js
public-key decode. -/
theorem getEthAddress_spec (keccak decodePub : List Nat → List Nat)
    (blob pt : List Nat)
    (hdec : decodePub blob = pt) (hlen : pt.length = 65)
    (hk1 : (keccak (pt.drop 1)).length = 32)
    (hk2 : (keccak (pt.drop 1)).all (fun b => decide (b < 256)) = true)
    (hk3 : (keccak (List.map Char.toNat (bytesToHexChars
      ((keccak (pt.drop 1)).drop 12)))).length = 32) :
    (pt.drop 1).length = 64 ∧
    ((keccak (pt.drop 1)).drop 12).length = 20 ∧
    getEthAddress keccak decodePub blob =
      "0x" ++ String.mk (checksumChars keccak
        (bytesToHexChars ((keccak (pt.drop 1)).drop 12))) ∧
    (getEthAddress keccak decodePub blob).length = 42 := by
  have h64 : (pt.drop 1).length = 64 := by rw [List.length_drop, hlen]
  have h20 : ((keccak (pt.drop 1)).drop 12).length = 20 := by
    rw [List.length_drop, hk1]
  have hbytes : ∀ b ∈ keccak (pt.drop 1), b < 256 := by
    intro b hb
    simpa using List.all_eq_true.mp hk2 b hb
  have hbytes2 : ∀ b ∈ (keccak (pt.drop 1)).drop 12, b < 256 :=
    fun b hb => hbytes b (List.drop_subset 12 _ hb)
  have hhexlen : (bytesToHexChars (keccak (pt.drop 1))).length = 64 := by
    rw [length_bytesToHexChars, hk1]
  have hslice : ('0' :: 'x' :: bytesToHexChars (keccak (pt.drop 1))).drop
      (('0' :: 'x' :: bytesToHexChars (keccak (pt.drop 1))).length - 40) =
      bytesToHexChars ((keccak (pt.drop 1)).drop 12) := by
    have hl66 : ('0' :: 'x' ::
        bytesToHexChars (keccak (pt.drop 1))).length = 66 := by
      rw [List.length_cons, List.length_cons, hhexlen]
    rw [hl66, bytesToHexChars_drop]
    rfl
  have hmain : getEthAddress keccak decodePub blob =
      ethersGetAddress keccak ("0x" ++ String.mk
        (bytesToHexChars ((keccak (pt.drop 1)).drop 12))) := by
    simp only [getEthAddress]
    rw [hdec, hslice]
  have haddr : ethersGetAddress keccak ("0x" ++ String.mk
      (bytesToHexChars ((keccak (pt.drop 1)).drop 12))) =
      "0x" ++ String.mk (checksumChars keccak
        (bytesToHexChars ((keccak (pt.drop 1)).drop 12))) := by
    unfold ethersGetAddress strLower
    rw [data_mk_0x, List.map_cons, List.map_cons,
      map_asciiToLower_bytesToHexChars _ hbytes2]
    rfl
  have hcs : (checksumChars keccak
      (bytesToHexChars ((keccak (pt.drop 1)).drop 12))).length = 40 := by
    unfold checksumChars
    rw [List.length_zipWith, length_byteNibbles, hk3,
      length_bytesToHexChars, h20]
    omega
  refine ⟨h64, h20, hmain.trans haddr, ?_⟩
  rw [hmain, haddr]
  show ('0' :: 'x' :: checksumChars keccak
    (bytesToHexChars ((keccak (pt.drop 1)).drop 12))).length = 42
  rw [List.length_cons, List.length_cons, hcs]

/-- A stand-in external keccak for witnesses: 32 zero bytes. -/
def kZeros : List Nat → List Nat := fun _ => List.replicate 32 0

/-- A stand-in external public-key DER decode for witnesses: a 65-byte
point with tag byte 4. -/
def pubKey65 : List Nat → List Nat := fun _ => List.replicate 65 4

/-- Witness for C3 with concrete external primitives. -/
theorem getEthAddress_spec_witness :
    (pubKey65 [] = List.replicate 65 4 ∧
      (List.replicate 65 4 : List Nat).length = 65 ∧
      (kZeros ((List.replicate 65 4 : List Nat).drop 1)).length = 32 ∧
      (kZeros ((List.replicate 65 4 : List Nat).drop 1)).all
        (fun b => decide (b < 256)) = true ∧
      (kZeros (List.map Char.toNat (bytesToHexChars
        ((kZeros ((List.replicate 65 4 : List Nat).drop 1)).drop
          12)))).length = 32) ∧
    (((List.replicate 65 4 : List Nat).drop 1).length = 64 ∧
      ((kZeros ((List.replicate 65 4 : List Nat).drop 1)).drop 12).length
        = 20 ∧
      getEthAddress kZeros pubKey65 [] =
        "0x" ++ String.mk (checksumChars kZeros (bytesToHexChars
          ((kZeros ((List.replicate 65 4 : List Nat).drop 1)).drop 12))) ∧
      (getEthAddress kZeros pubKey65 []).length = 42) :=
  ⟨⟨rfl, by decide, by decide, by decide, by decide⟩,
    getEthAddress_spec kZeros pubKey65 [] (List.replicate 65 4)
      rfl (by decide) (by decide) (by decide) (by decide)⟩

/-! ### Recovery id resolution (types.ts 147-174) -/

/-- Error outcomes of the embedded signer core; TS throws become these. -/
inductive KmsError where
  | missingPublicKey
  | missingSignature
  | decodeError
  | recoveryFailure
  | addressMismatch
  | unsignedFromError
deriving DecidableEq

/-- Remote commands the signer can issue to AWS KMS. -/
inductive KmsEvent where
  | getPublicKeyCmd
  | signCmd
deriving DecidableEq

/-- `isCorrectV` from src/src/types.ts lines 147-156; the ethers
`recoverAddress` primitive is the `recover` parameter, applied to
`(msg, r, s, v)`. -/
def isCorrectV (recover : List Nat → String → String → Nat → String)
    (expectedEthAddr : String) (msg : List Nat) (r s : String) (v : Nat) :
    Bool :=
  strLower (recover msg r s v) == strLower expectedEthAddr

/-- `determineCorrectV` from src/src/types.ts lines 161-174: try v = 27
then v = 28; the TS throw is the error value. -/
def determineCorrectV (recover : List Nat → String → String → Nat → String)
    (msg : List Nat) (r s : String) (expectedEthAddr : String) :
    Except KmsError Nat :=
  if isCorrectV recover expectedEthAddr msg r s 27 then Except.ok 27
  else if isCorrectV recover expectedEthAddr msg r s 28 then Except.ok 28
  else Except.error KmsError.recoveryFailure

/-- C2: `determineCorrectV` returns 27 when the recovery primitive at
v = 27 yields a case-insensitive match of the expected address, otherwise
28 when v = 28 matches, errors exactly when neither candidate matches, and
never returns any value other than 27 or 28. -/
theorem determineCorrectV_spec
    (recover : List Nat → String → String → Nat → String)
    (msg : List Nat) (r s expectedEthAddr : String) :
    (strLower (recover msg r s 27) = strLower expectedEthAddr →
      determineCorrectV recover msg r s expectedEthAddr = Except.ok 27) ∧
    (strLower (recover msg r s 27) ≠ strLower expectedEthAddr →
      strLower (recover msg r s 28) = strLower expectedEthAddr →
      determineCorrectV recover msg r s expectedEthAddr = Except.ok 28) ∧
    (determineCorrectV recover msg r s expectedEthAddr =
        Except.error KmsError.recoveryFailure ↔
      (strLower (recover msg r s 27) ≠ strLower expectedEthAddr ∧
        strLower (recover msg r s 28) ≠ strLower expectedEthAddr)) ∧
    (∀ v, determineCorrectV recover msg r s expectedEthAddr = Except.ok v →
      v = 27 ∨ v = 28) := by
  by_cases h27 : strLower (recover msg r s 27) = strLower expectedEthAddr
  · refine ⟨fun _ => by simp [determineCorrectV, isCorrectV, h27],
      fun hne _ => absurd h27 hne, ?_, ?_⟩
    · simp [determineCorrectV, isCorrectV, h27]
    · intro v hv
      simp [determineCorrectV, isCorrectV, h27] at hv
      omega
  · by_cases h28 : strLower (recover msg r s 28) = strLower expectedEthAddr
    · refine ⟨fun h => absurd h h27,
        fun _ _ => by simp [determineCorrectV, isCorrectV, h27, h28],
        ?_, ?_⟩
      · simp [determineCorrectV, isCorrectV, h27, h28]
      · intro v hv
        simp [determineCorrectV, isCorrectV, h27, h28] at hv
        omega
    · refine ⟨fun h => absurd h h27, fun _ h => absurd h h28, ?_, ?_⟩
      · simp [determineCorrectV, isCorrectV, h27, h28]
      · intro v hv
        simp [determineCorrectV, isCorrectV, h27, h28] at hv

/-- A stand-in external recovery primitive for witnesses. -/
def recTest : List Nat → String → String → Nat → String :=
  fun _ _ _ v => if v = 27 then "0xAB" else "0xCD"

/-- Witness for C2: the 27 branch of the case split, at concrete inputs. -/
theorem determineCorrectV_spec_witness :
    determineCorrectV recTest [] ("0x01") ("0x02") ("0xab") =
      Except.ok 27 :=
  (determineCorrectV_spec recTest [] ("0x01") ("0x02") ("0xab")).1
    (by decide)

/-! ### The signer (AwsKmsSigner.ts)

The AWS network boundary is explicit: the commands the signer issues are
collected as a `KmsEvent` trace and the responses the client would return
are inputs (`KmsResponses`).  `resolveProperties` on plain values is the
identity, so the resolved from/to of a request are its own fields.
`Transaction.from` / serialization / `Signature.from` are external to the
core; the embedded result of a signing run is the `(r, s, v)` triple
together with the final state of the caller's request object. -/

/-- The fields of an ethers `TransactionRequest` this code touches
(`from`, `to`), plus one abstract field for everything else. -/
structure TxRequest where
  fromAddr : Option String
  toAddr : Option String
  payload : Nat
deriving DecidableEq

/-- The only mutable signer state: the memoized address field. -/
structure SignerState where
  address : Option String
deriving DecidableEq

/-- Responses of the external KMS client: `GetPublicKeyCommand` returns an
optional `PublicKey`, `SignCommand` an optional `Signature`. -/
structure KmsResponses where
  pubKeyResp : Option (List Nat)
  signResp : Option (List Nat)

/-- The external pure primitives the signer consumes. -/
structure Externals where
  keccak : List Nat → List Nat
  decodePub : List Nat → List Nat
  recover : List Nat → String → String → Nat → String
  unsignedHash : TxRequest → List Nat

/-- `getAddress` (AwsKmsSigner.ts 80-95): return the memoized address if
present; otherwise issue GetPublicKeyCommand, fail if no key comes back,
else derive, memoize and return the address. -/
def getAddressM (ext : Externals) (resp : KmsResponses) (st : SignerState) :
    Except KmsError (SignerState × String) × List KmsEvent :=
  match st.address with
  | some a => (Except.ok (st, a), [])
  | none =>
      match resp.pubKeyResp with
      | none =>
          (Except.error KmsError.missingPublicKey,
            [KmsEvent.getPublicKeyCmd])
      | some pk =>
          let a := getEthAddress ext.keccak ext.decodePub pk
          (Except.ok ({ address := some a }, a),
            [KmsEvent.getPublicKeyCmd])

/-- `_rawKmsSign` (AwsKmsSigner.ts 164-179): issue SignCommand, fail if no
signature comes back, else decode and normalize it. -/
def rawKmsSignM (resp : KmsResponses) :
    Except KmsError (String × String) × List KmsEvent :=
  match resp.signResp with
  | none => (Except.error KmsError.missingSignature, [KmsEvent.signCmd])
  | some sigBytes =>
      match getRsSignature sigBytes with
      | none => (Except.error KmsError.decodeError, [KmsEvent.signCmd])
      | some rs => (Except.ok rs, [KmsEvent.signCmd])

/-- `_signDigest` (AwsKmsSigner.ts 150-159): raw sign and getAddress (a
joint await), then resolve v against the derived address. -/
def signDigestM (ext : Externals) (resp : KmsResponses) (st : SignerState)
    (digest : List Nat) :
    Except KmsError (SignerState × String × String × Nat) ×
      List KmsEvent :=
  match rawKmsSignM resp, getAddressM ext resp st with
  | (Except.ok (r, s), ev1), (Except.ok (st1, ethAddress), ev2) =>
      (match determineCorrectV ext.recover digest r s ethAddress with
       | Except.ok v => (Except.ok (st1, r, s, v), ev1 ++ ev2)
       | Except.error e => (Except.error e, ev1 ++ ev2))
  | (Except.error e, ev1), (_, ev2) => (Except.error e, ev1 ++ ev2)
  | (Except.ok _, ev1), (Except.error e, ev2) =>
      (Except.error e, ev1 ++ ev2)

/-- Lines 106-112 of AwsKmsSigner.ts: write the resolved to and from
values back into the caller's request (`if (to != null) txRequest.to = to`
and likewise for from).  Resolution is the identity on the plain values of
this model, so the writes store the fields' own resolved values. -/
def resolveWriteback (txRequest : TxRequest) : TxRequest :=
  let tx1 := match txRequest.toAddr with
    | some t => { txRequest with toAddr := some t }
    | none => txRequest
  match txRequest.fromAddr with
  | some f => { tx1 with fromAddr := some f }
  | none => tx1

/-- The write-back of the resolved fields leaves the request equal to
itself: the assignments store the values the fields already hold. -/
theorem resolveWriteback_eq (tx : TxRequest) : resolveWriteback tx = tx := by
  obtain ⟨f0, t0, p0⟩ := tx
  unfold resolveWriteback
  cases t0 <;> cases f0 <;> rfl

/-- Lines 122-124 of AwsKmsSigner.ts: `Transaction.from(txRequest)`, then
sign the transaction's unsignedHash and serialize.  The external ethers v6
`Transaction.from` rejects a request that still carries a non-null `from`:
for the unsigned transaction built here it throws (`unsigned transaction
cannot define .from`) before anything is signed — the reason line 119
deletes the field — modelled as the `unsignedFromError` value.  Hashing
and serialization of a from-free request are external and abstract. -/
def buildAndSignM (ext : Externals) (resp : KmsResponses)
    (st1 : SignerState) (txF : TxRequest) (ev1 : List KmsEvent) :
    Except KmsError (SignerState × TxRequest × String × String × Nat) ×
      List KmsEvent :=
  match txF.fromAddr with
  | some _ => (Except.error KmsError.unsignedFromError, ev1)
  | none =>
      match signDigestM ext resp st1 (ext.unsignedHash txF) with
      | (Except.ok (st2, sig), ev2) =>
          (Except.ok (st2, txF, sig), ev1 ++ ev2)
      | (Except.error e, ev2) => (Except.error e, ev1 ++ ev2)

/-- `signTransaction` (AwsKmsSigner.ts 100-125): resolve from/to jointly
with getAddress, write the resolved values back into the caller's request,
then — only when the request's from is truthy (JS: a non-empty string) —
compare it case-insensitively with the derived address, throw on mismatch
and delete it on match, and finally build and sign the transaction.  The
returned request is the post-call state of the caller's object. -/
def signTransactionM (ext : Externals) (resp : KmsResponses) (st : SignerState)
    (txRequest : TxRequest) :
    Except KmsError (SignerState × TxRequest × String × String × Nat) ×
      List KmsEvent :=
  match getAddressM ext resp st with
  | (Except.error e, ev1) => (Except.error e, ev1)
  | (Except.ok (st1, ethAddress), ev1) =>
      let tx2 := resolveWriteback txRequest
      match tx2.fromAddr with
      | some f =>
          if f = "" then
            buildAndSignM ext resp st1 tx2 ev1
          else if strLower f ≠ strLower ethAddress then
            (Except.error KmsError.addressMismatch, ev1)
          else
            buildAndSignM ext resp st1 { tx2 with fromAddr := none } ev1
      | none => buildAndSignM ext resp st1 tx2 ev1

theorem getAddressM_of_some (ext : Externals) (resp : KmsResponses)
    (st : SignerState) (a0 : String) (hmem : st.address = some a0) :
    getAddressM ext resp st = (Except.ok (st, a0), []) := by
  unfold getAddressM
  rw [hmem]

theorem getAddressM_no_sign (ext : Externals) (resp : KmsResponses)
    (st : SignerState) :
    KmsEvent.signCmd ∉ (getAddressM ext resp st).2 := by
  unfold getAddressM
  cases st.address with
  | some a => simp
  | none =>
      cases resp.pubKeyResp with
      | none => simp
      | some pk => simp

theorem getAddressM_error (ext : Externals) (resp : KmsResponses)
    (st : SignerState) (e : KmsError) (evs : List KmsEvent)
    (h : getAddressM ext resp st = (Except.error e, evs)) :
    e = KmsError.missingPublicKey := by
  unfold getAddressM at h
  cases hst : st.address with
  | some a =>
      rw [hst] at h
      exact absurd h (by simp)
  | none =>
      rw [hst] at h
      cases hpk : resp.pubKeyResp with
      | none =>
          rw [hpk] at h
          simp only [Prod.mk.injEq, Except.error.injEq] at h
          exact h.1.symm
      | some pk =>
          rw [hpk] at h
          exact absurd h (by simp)

theorem rawKmsSignM_error (resp : KmsResponses) (e : KmsError)
    (evs : List KmsEvent) (h : rawKmsSignM resp = (Except.error e, evs)) :
    e = KmsError.missingSignature ∨ e = KmsError.decodeError := by
  unfold rawKmsSignM at h
  split at h
  · simp only [Prod.mk.injEq, Except.error.injEq] at h
    exact Or.inl h.1.symm
  · split at h
    · simp only [Prod.mk.injEq, Except.error.injEq] at h
      exact Or.inr h.1.symm
    · exact absurd h (by simp)

theorem determineCorrectV_error_eq
    (recover : List Nat → String → String → Nat → String)
    (msg : List Nat) (r s expectedEthAddr : String) (e : KmsError)
    (h : determineCorrectV recover msg r s expectedEthAddr =
      Except.error e) :
    e = KmsError.recoveryFailure := by
  unfold determineCorrectV at h
  split at h
  · exact absurd h (by simp)
  · split at h
    · exact absurd h (by simp)
    · simp only [Except.error.injEq] at h
      exact h.symm

theorem signDigestM_no_mismatch (ext : Externals) (resp : KmsResponses)
    (st : SignerState) (digest : List Nat) (e : KmsError)
    (evs : List KmsEvent)
    (h : signDigestM ext resp st digest = (Except.error e, evs)) :
    e ≠ KmsError.addressMismatch := by
  unfold signDigestM at h
  split at h
  · split at h
    · exact absurd h (by simp)
    · rename_i e3 hdet
      simp only [Prod.mk.injEq, Except.error.injEq] at h
      obtain ⟨he, _⟩ := h
      subst he
      rw [determineCorrectV_error_eq _ _ _ _ _ _ hdet]
      decide
  · rename_i e1 ev1 fst2 ev2 hr hga
    simp only [Prod.mk.injEq, Except.error.injEq] at h
    obtain ⟨he, _⟩ := h
    subst he
    rcases rawKmsSignM_error resp e1 ev1 hr with h1 | h1 <;>
      rw [h1] <;> decide
  · rename_i a1 ev1 e2 ev2 hr hga
    simp only [Prod.mk.injEq, Except.error.injEq] at h
    obtain ⟨he, _⟩ := h
    subst he
    rw [getAddressM_error ext resp st _ _ hga]
    decide

theorem signDigestM_state (ext : Externals) (resp : KmsResponses)
    (st : SignerState) (digest : List Nat) (st2 : SignerState)
    (r s : String) (v : Nat) (evs : List KmsEvent) (a0 : String)
    (hmem : st.address = some a0)
    (h : signDigestM ext resp st digest =
      (Except.ok (st2, r, s, v), evs)) :
    st2 = st := by
  have hga := getAddressM_of_some ext resp st a0 hmem
  unfold signDigestM at h
  split at h
  · rename_i r1 s1 ev1 st1 addr ev2 hr hgaeq
    rw [hga] at hgaeq
    simp only [Prod.mk.injEq, Except.ok.injEq] at hgaeq
    obtain ⟨⟨h1, h2⟩, h3⟩ := hgaeq
    split at h
    · simp only [Prod.mk.injEq, Except.ok.injEq] at h
      rw [← h.1.1, ← h1]
    · exact absurd h (by simp)
  · exact absurd h (by simp)
  · exact absurd h (by simp)

theorem buildAndSignM_fst_no_mismatch (ext : Externals)
    (resp : KmsResponses) (st1 : SignerState) (txF : TxRequest)
    (ev1 : List KmsEvent) :
    (buildAndSignM ext resp st1 txF ev1).1 ≠
      Except.error KmsError.addressMismatch := by
  unfold buildAndSignM
  split
  · intro hx
    simp at hx
  · split
    · intro hx
      simp at hx
    · rename_i e ev2 hsd
      intro hx
      simp at hx
      exact signDigestM_no_mismatch ext resp st1 (ext.unsignedHash txF)
        e ev2 hsd hx

/-- C8: the memoized address field is written at most once: a successful
`getAddress` leaves the state holding the returned address, a repeat call
returns the same value with the state unchanged and issues no further
GetPublicKeyCommand, a first call from an empty state performs exactly one
fetch, and a call that starts memoized performs none and changes nothing. -/
theorem getAddress_memoized (ext : Externals) (resp : KmsResponses)
    (st st1 : SignerState) (a : String) (evs : List KmsEvent)
    (h : getAddressM ext resp st = (Except.ok (st1, a), evs)) :
    st1.address = some a ∧
    getAddressM ext resp st1 = (Except.ok (st1, a), []) ∧
    (st.address = none → evs = [KmsEvent.getPublicKeyCmd]) ∧
    (st.address ≠ none → st1 = st ∧ evs = []) := by
  cases hst : st.address with
  | some a0 =>
      rw [getAddressM_of_some ext resp st a0 hst] at h
      simp only [Prod.mk.injEq, Except.ok.injEq] at h
      obtain ⟨⟨h1, h2⟩, h3⟩ := h
      subst h1
      subst h2
      subst h3
      refine ⟨hst, getAddressM_of_some ext resp st a0 hst, ?_, ?_⟩
      · intro hc
        exact absurd hc (by simp)
      · intro _
        exact ⟨rfl, rfl⟩
  | none =>
      unfold getAddressM at h
      rw [hst] at h
      cases hpk : resp.pubKeyResp with
      | none =>
          rw [hpk] at h
          exact absurd h (by simp)
      | some pk =>
          rw [hpk] at h
          simp only [Prod.mk.injEq, Except.ok.injEq] at h
          obtain ⟨⟨h1, h2⟩, h3⟩ := h
          subst h2
          subst h3
          refine ⟨?_, ?_, fun _ => rfl, ?_⟩
          · rw [← h1]
          · rw [← h1]
            exact getAddressM_of_some ext resp _ _ rfl
          · intro hc
            exact absurd rfl hc

/-- Concrete externals for witnesses: zero keccak, constant public key,
the recovery stand-in, empty digests. -/
def extT : Externals :=
  { keccak := kZeros, decodePub := pubKey65, recover := recTest,
    unsignedHash := fun _ => [] }

/-- Concrete KMS responses: an empty public-key blob and a DER signature
encoding `(2, 3)`. -/
def respT : KmsResponses :=
  { pubKeyResp := some [], signResp := some [48, 6, 2, 1, 2, 2, 1, 3] }

/-- A signer state memoized at address 0xab. -/
def stT : SignerState := { address := some ("0xab") }

/-- The address the witness externals derive. -/
def addrT : String := getEthAddress kZeros pubKey65 []

/-- Witness for C8: a first call from the empty state, and the behavior of
the repeat call, at concrete externals. -/
theorem getAddress_memoized_witness :
    getAddressM extT respT { address := none } =
      (Except.ok ({ address := some addrT }, addrT),
        [KmsEvent.getPublicKeyCmd]) ∧
    (({ address := some addrT } : SignerState).address = some addrT ∧
      getAddressM extT respT { address := some addrT } =
        (Except.ok ({ address := some addrT }, addrT), []) ∧
      (({ address := none } : SignerState).address = none →
        [KmsEvent.getPublicKeyCmd] = [KmsEvent.getPublicKeyCmd]) ∧
      (({ address := none } : SignerState).address ≠ none →
        ({ address := some addrT } : SignerState) = { address := none } ∧
          [KmsEvent.getPublicKeyCmd] = ([] : List KmsEvent))) :=
  ⟨rfl, getAddress_memoized extT respT { address := none }
    { address := some addrT } addrT [KmsEvent.getPublicKeyCmd] rfl⟩

/-- C7 (amended): when a transaction request carries a non-empty resolved
from string that differs case-insensitively from the signer's derived
address, signTransaction fails with the address-mismatch error and the
SignCommand is never issued; when it matches case-insensitively, no
address-mismatch error can be produced. -/
theorem signTransaction_mismatch (ext : Externals) (resp : KmsResponses)
    (st st1 : SignerState) (ethAddr : String) (evs : List KmsEvent)
    (tx : TxRequest) (f : String)
    (hget : getAddressM ext resp st = (Except.ok (st1, ethAddr), evs))
    (hfrom : tx.fromAddr = some f) (hne : f ≠ "") :
    (strLower f ≠ strLower ethAddr →
      signTransactionM ext resp st tx =
        (Except.error KmsError.addressMismatch, evs) ∧
      KmsEvent.signCmd ∉ evs) ∧
    (strLower f = strLower ethAddr →
      (signTransactionM ext resp st tx).1 ≠
        Except.error KmsError.addressMismatch) := by
  have hnos : KmsEvent.signCmd ∉ evs := by
    have hn := getAddressM_no_sign ext resp st
    rw [hget] at hn
    exact hn
  constructor
  · intro hmm
    refine ⟨?_, hnos⟩
    simp only [signTransactionM, hget, resolveWriteback_eq, hfrom]
    rw [if_neg hne, if_pos hmm]
  · intro heq hcontra
    simp only [signTransactionM, hget, resolveWriteback_eq,
      hfrom] at hcontra
    rw [if_neg hne, if_neg (by simp [heq])] at hcontra
    exact absurd hcontra (buildAndSignM_fst_no_mismatch ext resp st1 _ _)

/-- C7 counterexample: a present but empty from string (JS-falsy) that
differs case-insensitively from the derived address 0xab bypasses the
mismatch check at line 114 entirely: signTransaction does not raise the
address-mismatch error there — the still-present from instead trips the
external ethers `Transaction.from` assert — and the KMS SignCommand is
never issued, so the claim's "throws an address-mismatch error" fails at
this differing from-address. -/
theorem signTransaction_empty_from :
    ({ fromAddr := some (""), toAddr := none, payload := 7 } :
        TxRequest).fromAddr = some ("") ∧
    strLower ("") ≠ strLower ("0xab") ∧
    signTransactionM extT respT stT
      { fromAddr := some (""), toAddr := none, payload := 7 } =
      (Except.error KmsError.unsignedFromError, []) ∧
    KmsError.unsignedFromError ≠ KmsError.addressMismatch ∧
    KmsEvent.signCmd ∉ ([] : List KmsEvent) := by
  refine ⟨rfl, by decide, ?_, by decide, by decide⟩
  rfl

/-- Witness for the amended C7: a non-empty mismatching from address at
the concrete externals. -/
theorem signTransaction_mismatch_witness :
    (getAddressM extT respT stT = (Except.ok (stT, "0xab"), []) ∧
      ({ fromAddr := some ("0xzz"), toAddr := none, payload := 7 } :
        TxRequest).fromAddr = some ("0xzz") ∧
      ("0xzz" : String) ≠ "") ∧
    ((strLower ("0xzz") ≠ strLower ("0xab") →
        signTransactionM extT respT stT
          { fromAddr := some ("0xzz"), toAddr := none, payload := 7 } =
          (Except.error KmsError.addressMismatch, []) ∧
        KmsEvent.signCmd ∉ ([] : List KmsEvent)) ∧
      (strLower ("0xzz") = strLower ("0xab") →
        (signTransactionM extT respT stT
          { fromAddr := some ("0xzz"), toAddr := none, payload := 7 }).1 ≠
          Except.error KmsError.addressMismatch)) :=
  ⟨⟨rfl, rfl, by decide⟩,
    signTransaction_mismatch extT respT stT stT ("0xab") []
      { fromAddr := some ("0xzz"), toAddr := none, payload := 7 }
      ("0xzz") rfl rfl (by decide)⟩

/-- C9 (amended): signTransaction does mutate the caller-supplied request:
on a successful run the returned request is the input with a truthy
(non-empty) from deleted — an absent or empty from is left as is — while
the to field and the remaining payload are unchanged; and a previously
memoized address is never overwritten (the memoization write happens at
most once). -/
theorem signTransaction_frame (ext : Externals) (resp : KmsResponses)
    (st st2 : SignerState) (tx tx2 : TxRequest)
    (r s : String) (v : Nat) (evs : List KmsEvent)
    (h : signTransactionM ext resp st tx =
      (Except.ok (st2, tx2, r, s, v), evs)) :
    tx2.toAddr = tx.toAddr ∧
    tx2.payload = tx.payload ∧
    tx2.fromAddr = (match tx.fromAddr with
      | some f => if f = "" then some f else none
      | none => none) ∧
    (st.address ≠ none → st2 = st) := by
  unfold signTransactionM at h
  simp only [resolveWriteback_eq] at h
  split at h
  · exact absurd h (by simp)
  · rename_i st1 ethAddress ev1 hga
    have hstate : ∀ (D : List Nat) (st2' : SignerState) (r1 s1 : String)
        (v1 : Nat) (ev2 : List KmsEvent),
        signDigestM ext resp st1 D = (Except.ok (st2', r1, s1, v1), ev2) →
        st.address ≠ none → st2' = st := by
      intro D st2' r1 s1 v1 ev2 hsd hmem
      cases hsa : st.address with
      | none => exact absurd hsa hmem
      | some a0 =>
          have hga2 := getAddressM_of_some ext resp st a0 hsa
          rw [hga2] at hga
          simp only [Prod.mk.injEq, Except.ok.injEq] at hga
          obtain ⟨⟨hst1, ha⟩, hev⟩ := hga
          have hmem1 : st1.address = some a0 := by
            rw [← hst1]
            exact hsa
          rw [signDigestM_state ext resp st1 D st2' r1 s1 v1 ev2 a0
            hmem1 hsd]
          exact hst1.symm
    cases hfrom : tx.fromAddr with
    | none =>
        simp only [hfrom, buildAndSignM] at h
        split at h
        · rename_i st2' sig ev2 hsd
          obtain ⟨r1, s1, v1⟩ := sig
          simp only [Prod.mk.injEq, Except.ok.injEq] at h
          obtain ⟨⟨h1, h2, h3⟩, h4⟩ := h
          obtain ⟨hr, hs, hv⟩ := h3
          refine ⟨by rw [← h2], by rw [← h2], ?_, ?_⟩
          · rw [← h2]
            simp [hfrom]
          · intro hmem
            rw [← h1]
            exact hstate _ st2' r1 s1 v1 ev2 hsd hmem
        · exact absurd h (by simp)
    | some f =>
        simp only [hfrom] at h
        by_cases hfe : f = ""
        · rw [if_pos hfe] at h
          simp [buildAndSignM, hfrom] at h
        · rw [if_neg hfe] at h
          by_cases hsl : strLower f ≠ strLower ethAddress
          · rw [if_pos hsl] at h
            exact absurd h (by simp)
          · rw [if_neg hsl] at h
            simp only [buildAndSignM] at h
            split at h
            · rename_i st2' sig ev2 hsd
              obtain ⟨r1, s1, v1⟩ := sig
              simp only [Prod.mk.injEq, Except.ok.injEq] at h
              obtain ⟨⟨h1, h2, h3⟩, h4⟩ := h
              refine ⟨by rw [← h2], by rw [← h2], ?_, ?_⟩
              · rw [← h2]
                simp [hfrom, hfe]
              · intro hmem
                rw [← h1]
                exact hstate _ st2' r1 s1 v1 ev2 hsd hmem
            · exact absurd h (by simp)

/-- C9 counterexample: a concrete successful signTransaction run returns
the caller's request with its from field deleted — the request object is
mutated, not left unchanged. -/
theorem signTransaction_mutates_request :
    signTransactionM extT respT stT
      { fromAddr := some ("0xAB"), toAddr := none, payload := 7 } =
      (Except.ok (stT, { fromAddr := none, toAddr := none, payload := 7 },
        "0x02", "0x03", 27), [KmsEvent.signCmd]) ∧
    ({ fromAddr := none, toAddr := none, payload := 7 } : TxRequest) ≠
      { fromAddr := some ("0xAB"), toAddr := none, payload := 7 } := by
  refine ⟨rfl, by decide⟩

/-- Witness for the amended C9 at the same concrete run. -/
theorem signTransaction_frame_witness :
    signTransactionM extT respT stT
      { fromAddr := some ("0xAB"), toAddr := none, payload := 7 } =
      (Except.ok (stT, { fromAddr := none, toAddr := none, payload := 7 },
        "0x02", "0x03", 27), [KmsEvent.signCmd]) ∧
    (({ fromAddr := none, toAddr := none, payload := 7 } :
        TxRequest).toAddr =
      ({ fromAddr := some ("0xAB"), toAddr := none, payload := 7 } :
        TxRequest).toAddr ∧
      ({ fromAddr := none, toAddr := none, payload := 7 } :
        TxRequest).payload =
      ({ fromAddr := some ("0xAB"), toAddr := none, payload := 7 } :
        TxRequest).payload ∧
      ({ fromAddr := none, toAddr := none, payload := 7 } :
        TxRequest).fromAddr =
        (match ({ fromAddr := some ("0xAB"), toAddr := none, payload := 7 } :
            TxRequest).fromAddr with
          | some f => if f = "" then some f else none
          | none => none) ∧
      (stT.address ≠ none → stT = stT)) :=
  ⟨rfl, signTransaction_frame extT respT stT stT
    { fromAddr := some ("0xAB"), toAddr := none, payload := 7 }
    { fromAddr := none, toAddr := none, payload := 7 }
    ("0x02") ("0x03") 27 [KmsEvent.signCmd] rfl⟩

/-! ### Constructor and connect (AwsKmsSigner.ts 43-75) -/

/-- Explicit AWS credentials of the config (types.ts 41-45). -/
structure AwsCredentials where
  accessKeyId : String
  secretAccessKey : String
  sessionToken : Option String
deriving DecidableEq

/-- `AwsKmsSignerConfig` from src/src/types.ts lines 24-46. -/
structure AwsKmsSignerConfig where
  keyId : String
  region : Option String
  profile : Option String
  credentials : Option AwsCredentials
deriving DecidableEq

/-- How the constructed KMS client resolves credentials. -/
inductive CredSource where
  | explicitCreds (c : AwsCredentials)
  | profileCreds (p : String)
  | defaultChain
deriving DecidableEq

/-- The state an AwsKmsSigner instance carries: key id, the region the
client was configured with, the credential mode, and the memoized
address. -/
structure Signer where
  keyId : String
  clientRegion : String
  credSource : CredSource
  address : Option String
deriving DecidableEq

/-- JS `a || b` on an optional string: absent and empty are falsy. -/
def jsOrStr (o : Option String) (d : String) : String :=
  match o with
  | some s => if s = "" then d else s
  | none => d

/-- The constructor (AwsKmsSigner.ts 43-62): region is
`config.region || process.env.AWS_REGION || 'us-east-1'`; explicit
credentials win, else a truthy profile, else the default chain; the
memoized address starts empty. -/
def mkSigner (config : AwsKmsSignerConfig) (envRegion : Option String) :
    Signer :=
  { keyId := config.keyId
    clientRegion := jsOrStr config.region (jsOrStr envRegion ("us-east-1"))
    credSource :=
      match config.credentials with
      | some c => CredSource.explicitCreds c
      | none =>
          match config.profile with
          | some p =>
              if p = "" then CredSource.defaultChain
              else CredSource.profileCreds p
          | none => CredSource.defaultChain
    address := none }

/-- `connect` (AwsKmsSigner.ts 67-75): build a fresh signer from a config
holding only the key id and the client's resolved region. -/
def connectSigner (s : Signer) (envRegion : Option String) : Signer :=
  mkSigner
    { keyId := s.keyId, region := some s.clientRegion,
      profile := none, credentials := none } envRegion

theorem mkSigner_region_ne_empty (config : AwsKmsSignerConfig)
    (envRegion : Option String) :
    (mkSigner config envRegion).clientRegion ≠ "" := by
  show jsOrStr config.region (jsOrStr envRegion ("us-east-1")) ≠ ""
  cases config.region with
  | none =>
      cases envRegion with
      | none => decide
      | some e =>
          by_cases he : e = ""
          · simp [jsOrStr, he]
          · simp [jsOrStr, he]
  | some r =>
      by_cases hr : r = ""
      · cases envRegion with
        | none => simp [jsOrStr, hr]
        | some e =>
            by_cases he : e = ""
            · simp [jsOrStr, hr, he]
            · simp [jsOrStr, hr, he]
      · simp [jsOrStr, hr]

/-- C10: connecting a signer that was constructed with a profile or with
explicit credentials yields a new signer that keeps only the key id and
the resolved region: it carries no profile and no explicit credentials
(default credential chain) and its memoized address starts empty. -/
theorem connect_drops_credentials (config : AwsKmsSignerConfig)
    (envRegion envRegion2 : Option String)
    (hcfg : config.profile.isSome ∨ config.credentials.isSome) :
    (connectSigner (mkSigner config envRegion) envRegion2).keyId =
      (mkSigner config envRegion).keyId ∧
    (connectSigner (mkSigner config envRegion) envRegion2).clientRegion =
      (mkSigner config envRegion).clientRegion ∧
    (connectSigner (mkSigner config envRegion) envRegion2).credSource =
      CredSource.defaultChain ∧
    (connectSigner (mkSigner config envRegion) envRegion2).address =
      none := by
  refine ⟨rfl, ?_, rfl, rfl⟩
  show jsOrStr (some ((mkSigner config envRegion).clientRegion))
    (jsOrStr envRegion2 ("us-east-1")) = _
  simp only [jsOrStr]
  rw [if_neg (mkSigner_region_ne_empty config envRegion)]

/-- A config carrying both a profile and a region, for the C10 witness. -/
def cfgT : AwsKmsSignerConfig :=
  { keyId := "key-1", region := some ("eu-west-1"),
    profile := some ("dev"), credentials := none }

/-- Witness for C10 at a concrete config with a profile. -/
theorem connect_drops_credentials_witness :
    (cfgT.profile.isSome ∨ cfgT.credentials.isSome) ∧
    ((connectSigner (mkSigner cfgT none) none).keyId =
        (mkSigner cfgT none).keyId ∧
      (connectSigner (mkSigner cfgT none) none).clientRegion =
        (mkSigner cfgT none).clientRegion ∧
      (connectSigner (mkSigner cfgT none) none).credSource =
        CredSource.defaultChain ∧
      (connectSigner (mkSigner cfgT none) none).address = none) :=
  ⟨Or.inl (by decide),
    connect_drops_credentials cfgT none none (Or.inl (by decide))⟩
